import Mathlib

/-!
# nwggrid: the list and grid logic of `main` (grid/grid.cc)

A shallow embedding of the parts of `main` that decide what the launcher shows:
the de-duplication loop over the parsed .desktop entries, the sort by name, the
favourites count, the favourite boxes, the attach loops of the two grids and the
handling of the `-n` and `-o` options.

Conventions.
* A `std::string` is the list of its bytes; `operator<` is `str_lt`.
* A `std::vector` is a `List`; `push_back` appends at the end.
* A C++ `int` is an `Int`. The grid counters only count the boxes of a vector
  held in memory. The cast `(int)cache.size()` is `to_int`, which wraps at 32 bits.
* Functions of the standard library or of files that are not part of grid.cc
  (`std::stoi`, `std::stod`, `get_favourites`, `cache.size()`) are parameters.
-/

namespace NwgGrid

/-! ## Strings -/

/-- A `std::string`: the sequence of its bytes, each an unsigned char value. -/
abbrev Str := List Nat

/-- The `operator<` of `std::string`: lexicographic comparison byte by byte, a proper
initial segment being smaller. Upper and lower case letters are different bytes. -/
def str_lt : Str → Str → Bool
  | [], [] => false
  | [], _ :: _ => true
  | _ :: _, [] => false
  | a :: as, b :: bs => if a < b then true else if b < a then false else str_lt as bs

/-! ## Desktop entries (grid.cc, lines 171-196) -/

/-- The struct `DesktopEntry`, built in `main` as `{e[0], e[1], e[2], e[3]}` from the
vector `{name, exec, icon, comment}` that `desktop_entry(path, lang)` returns. -/
structure DesktopEntry where
  name : Str
  exec : Str
  icon : Str
  comment : Str
deriving DecidableEq, Repr

/-- Two entries with the same name and the same exec: the test of line 183. -/
def same_pair (a b : DesktopEntry) : Prop :=
  a.name = b.name ∧ a.exec = b.exec

instance (a b : DesktopEntry) : Decidable (same_pair a b) :=
  inferInstanceAs (Decidable (a.name = b.name ∧ a.exec = b.exec))

/-- The inner loop of lines 181-186: `found` starts false and is set as soon as an entry of
`desktop_entries` has the name and the exec of `de`; the loop has no break. -/
def found_in (desktop_entries : List DesktopEntry) (de : DesktopEntry) : Bool :=
  desktop_entries.foldl
    (fun found entry => if entry.name = de.name ∧ entry.exec = de.exec then true else found)
    false

/-- One iteration of the loop of lines 173-191 for the parsed entry `de`. -/
def add_entry (desktop_entries : List DesktopEntry) (de : DesktopEntry) : List DesktopEntry :=
  if !de.name.isEmpty && !de.exec.isEmpty then
    if !found_in desktop_entries de then desktop_entries ++ [de] else desktop_entries
  else desktop_entries

/-- The loop of lines 172-191 over the parsed entries, in the order of `entries`. -/
def collect_entries (parsed : List DesktopEntry) : List DesktopEntry :=
  parsed.foldl add_entry []

/-- The comparator of line 194: `lhs.name < rhs.name`. -/
def name_lt (lhs rhs : DesktopEntry) : Bool :=
  str_lt lhs.name rhs.name

/-- Insertion of `val` into an ordered list, in front of the first element that `comp`
puts after it. -/
def linear_insert {α : Type} (comp : α → α → Bool) (val : α) : List α → List α
  | [] => [val]
  | x :: xs => if comp val x then val :: x :: xs else x :: linear_insert comp val xs

/-- The call `std::sort(first, last, comp)`. The function belongs to the C++ standard
library, which fixes its result up to the order of equivalent elements: a permutation of
the range in which no element is `comp`-smaller than an earlier one. It is embedded as
an insertion sort driven by the same comparator. -/
def std_sort {α : Type} (comp : α → α → Bool) (l : List α) : List α :=
  l.foldl (fun sorted val => linear_insert comp val sorted) []

/-- The vector `desktop_entries` after line 196: collected, then sorted by name. -/
def sorted_entries (parsed : List DesktopEntry) : List DesktopEntry :=
  std_sort name_lt (collect_entries parsed)

/-! ## Boxes (lines 257-297) -/

/-- The widget `AppBox(name, exec, comment)` with the image made from the icon. -/
structure AppBox where
  name : Str
  exec : Str
  comment : Str
  image : Str
deriving DecidableEq, Repr

/-- Lines 259-262 and 276-279: the box made for the entry `it`. -/
def make_box (it : DesktopEntry) : AppBox :=
  { name := it.name, exec := it.exec, comment := it.comment, image := it.icon }

/-- The loop of lines 258-268: one box per entry, in order. -/
def all_boxes (desktop_entries : List DesktopEntry) : List AppBox :=
  desktop_entries.map make_box

/-- An entry of the favourites vector; the struct is declared in grid.h, `main` reads only
its `exec`. -/
structure CacheEntry where
  exec : Str
  clicks : Int
deriving DecidableEq, Repr

/-- The loop of lines 286-290: is there a favourite box with this exec already? -/
def already_added (fav_boxes : List AppBox) (exec : Str) : Bool :=
  fav_boxes.foldl (fun added app_box => if app_box.exec = exec then true else added) false

/-- The body of the loop of lines 274-295 for the entry `it` and the favourite `entry`. -/
def fav_step (entry : CacheEntry) (fav_boxes : List AppBox) (it : DesktopEntry) : List AppBox :=
  if it.exec = entry.exec then
    if !already_added fav_boxes it.exec then fav_boxes ++ [make_box it] else fav_boxes
  else fav_boxes

/-- Lines 272-297: the vector `window.fav_boxes`. -/
def build_fav_boxes (favs : Bool) (favourites : List CacheEntry)
    (desktop_entries : List DesktopEntry) : List AppBox :=
  if favs && decide (favourites.length > 0) then
    favourites.foldl (fun fav_boxes entry => desktop_entries.foldl (fun fb it => fav_step entry fb it) fav_boxes) []
  else []

/-! ## Grid placement (lines 299-324) -/

/-- A call `grid.attach(*box, column, row, 1, 1)`. -/
structure Attached (β : Type) where
  box : β
  column : Int
  row : Int
deriving DecidableEq, Repr

/-- The state of an attach loop: the calls made so far and the two counters. -/
structure AttachState (β : Type) where
  attached : List (Attached β)
  column : Int
  row : Int

/-- The body of the loops of lines 303-311 and 316-324. -/
def attach_step {β : Type} (num_col : Int) (st : AttachState β) (box : β) : AttachState β :=
  let attached := st.attached ++ [{ box := box, column := st.column, row := st.row }]
  if st.column < num_col - 1 then
    { attached := attached, column := st.column + 1, row := st.row }
  else
    { attached := attached, column := 0, row := st.row + 1 }

/-- An attach loop from `column = 0`, `row = 0`: the calls to `attach`, in order. -/
def attach_all {β : Type} (num_col : Int) (boxes : List β) : List (Attached β) :=
  (boxes.foldl (attach_step num_col) { attached := [], column := 0, row := 0 }).attached

/-- Lines 302-312: the favourites grid is filled only under `favs && favourites.size() > 0`. -/
def attach_favs (favs : Bool) (favourites : List CacheEntry) (num_col : Int)
    (fav_boxes : List AppBox) : List (Attached AppBox) :=
  if favs && decide (favourites.length > 0) then attach_all num_col fav_boxes else []

/-- Lines 314-324: the applications grid. -/
def attach_apps (num_col : Int) (boxes : List AppBox) : List (Attached AppBox) :=
  attach_all num_col boxes

/-! ## Favourites count (lines 144-150) -/

/-- The cast `(int)` of a `size_t`: the value modulo 2^32, read as a signed 32 bit int.
A size below 2^31 is kept, the size 2^31 becomes -2147483648. -/
def to_int (n : Nat) : Int :=
  ((n : Int) + 2147483648) % 4294967296 - 2147483648

/-- Line 148: `(int)cache.size() >= num_col ? n = num_col : n = (int)cache.size()`. -/
def favourites_n (cache_size : Nat) (num_col : Int) : Int :=
  if to_int cache_size ≥ num_col then num_col else to_int cache_size

/-- Lines 146-150: the argument `n` of the call of `get_favourites`, or `none` when the
call is not made. -/
def favourites_request (cache_size : Nat) (num_col : Int) : Option Int :=
  if cache_size > 0 then some (favourites_n cache_size num_col) else none

/-- Lines 145-150: the vector `favourites`. The cache type, its `size()` and
`get_favourites` are declared outside grid.cc and are parameters. -/
def main_favourites {Cache : Type} (size : Cache → Nat)
    (get_favourites : Cache → Int → List CacheEntry) (cache : Cache) (num_col : Int) :
    List CacheEntry :=
  match favourites_request (size cache) num_col with
  | some n => get_favourites cache n
  | none => []

/-! ## Options (lines 60-72 and 84-96) -/

/-- What an option handler leaves behind: the value of the global and what it printed. -/
structure Handled (α : Type) where
  value : α
  printed : List String

/-- Lines 60-72. `stoi` is `std::stoi`, `none` standing for a thrown exception; `cols` is
the string `getCmdOption("-n")` returned, empty when the option is absent. -/
def handle_cols (stoi : Str → Option Int) (cols : Str) (num_col : Int) : Handled Int :=
  if !cols.isEmpty then
    match stoi cols with
    | some n_c =>
      if n_c > 0 && n_c < 100 then { value := n_c, printed := [] }
      else { value := num_col, printed := ["\nERROR: Columns must be in range 1 - 99\n\n"] }
    | none => { value := num_col, printed := ["\nERROR: Invalid number of columns\n\n"] }
  else { value := num_col, printed := [] }

/-- A `double` as far as comparisons see it: a finite value is a rational number, and the
comparisons of IEEE 754 are exact on finite values. -/
inductive Double where
  | finite (q : ℚ)
  | pos_inf
  | neg_inf
  | nan
deriving DecidableEq

/-- The comparison `a <= b` of two doubles (false as soon as one side is a NaN). -/
def Double.le : Double → Double → Bool
  | .nan, _ => false
  | _, .nan => false
  | .neg_inf, _ => true
  | _, .pos_inf => true
  | .pos_inf, _ => false
  | _, .neg_inf => false
  | .finite p, .finite q => decide (p ≤ q)

/-- Lines 84-96. `stod` is `std::stod`, `none` standing for a thrown exception; the test
is `o >= 0.0d && o <= 1.0d`. -/
def handle_opacity (stod : Str → Option Double) (opa : Str) (opacity : Double) :
    Handled Double :=
  if !opa.isEmpty then
    match stod opa with
    | some o =>
      if Double.le (.finite 0) o && Double.le o (.finite 1) then { value := o, printed := [] }
      else { value := opacity, printed := ["\nERROR: Opacity must be in range 0.0 to 1.0\n\n"] }
    | none => { value := opacity, printed := ["\nERROR: Invalid opacity value\n\n"] }
  else { value := opacity, printed := [] }

/-! ## Sample data -/

/-- The entry of Foo.desktop: Name=Foo, Exec=foo, Icon=foo, Comment=A. -/
def entry_foo : DesktopEntry :=
  { name := [70, 111, 111], exec := [102, 111, 111], icon := [102, 111, 111], comment := [65] }

/-- The entry of Bar.desktop: Name=Bar, Exec=bar, Icon=bar, Comment=B. -/
def entry_bar : DesktopEntry :=
  { name := [66, 97, 114], exec := [98, 97, 114], icon := [98, 97, 114], comment := [66] }

/-- A second Foo.desktop, from a later directory: Name=Foo, Exec=foo, Icon=f2, Comment=C. -/
def entry_foo_later : DesktopEntry :=
  { name := [70, 111, 111], exec := [102, 111, 111], icon := [102, 50], comment := [67] }

/-- An entry that the parser gave no name: the discard sentinel. -/
def entry_sentinel : DesktopEntry :=
  { name := [], exec := [], icon := [], comment := [] }

/-- A run of the parser over two directories. -/
def sample_parsed : List DesktopEntry :=
  [entry_foo, entry_sentinel, entry_bar, entry_foo_later]

/-- A favourite whose exec is the one of Foo: foo, 3 clicks. -/
def fav_foo : CacheEntry :=
  { exec := [102, 111, 111], clicks := 3 }

/-- A stale favourite, its application gone: exec gone, 7 clicks. -/
def fav_gone : CacheEntry :=
  { exec := [103, 111, 110, 101], clicks := 7 }

/-- A stand-in for `get_favourites` in the sample runs: the first `n` cache entries. -/
def sample_get_favourites (cache : List CacheEntry) (n : Int) : List CacheEntry :=
  cache.take n.toNat

/-- The result of `std::stoi` on the strings of the sample runs: the value of a string of
decimal digits that fits an int, an exception for a string with no digit in front. -/
def sample_stoi (s : Str) : Option Int :=
  if s ≠ [] ∧ s.all (fun c => decide (48 ≤ c ∧ c ≤ 57)) = true then
    let v : Int := s.foldl (fun acc c => 10 * acc + ((c : Int) - 48)) 0
    if v ≤ 2147483647 then some v else none
  else none

/-- The result of `std::stod` on the strings of the sample runs: 1.5 and 0.5 are read
exactly, a word is an exception. -/
def sample_stod (s : Str) : Option Double :=
  if s = [49, 46, 53] then some (.finite (3 / 2))
  else if s = [48, 46, 53] then some (.finite (1 / 2))
  else none

/-! ## Lemmas on the string order -/

theorem str_lt_irrefl (a : Str) : str_lt a a = false := by
  induction a with
  | nil => rfl
  | cons x xs ih => simp [str_lt, ih]

theorem str_lt_asymm : ∀ a b : Str, str_lt a b = true → str_lt b a = false
  | [], [] => by simp [str_lt]
  | [], _ :: _ => by simp [str_lt]
  | _ :: _, [] => by simp [str_lt]
  | x :: xs, y :: ys => by
    intro h
    simp only [str_lt] at h ⊢
    by_cases h1 : x < y
    · have h2 : ¬ y < x := by omega
      simp [h1, h2]
    · by_cases h2 : y < x
      · simp [h1, h2] at h
      · simp only [h1, h2, if_false] at h ⊢
        exact str_lt_asymm xs ys h

theorem str_lt_trichotomy : ∀ a b : Str, str_lt a b = false → str_lt b a = false → a = b
  | [], [] => by simp
  | [], _ :: _ => by simp [str_lt]
  | _ :: _, [] => by simp [str_lt]
  | x :: xs, y :: ys => by
    intro h h'
    simp only [str_lt] at h h'
    by_cases h1 : x < y
    · simp [h1] at h
    · by_cases h2 : y < x
      · simp [h2] at h'
      · simp only [h1, h2, if_false] at h h'
        have hxy : x = y := by omega
        rw [hxy, str_lt_trichotomy xs ys h h']

theorem str_lt_trans : ∀ a b c : Str, str_lt a b = true → str_lt b c = true → str_lt a c = true
  | [], _, [] => by
    intro h h'
    have := str_lt_asymm _ _ h
    simp_all
  | [], _, _ :: _ => by simp [str_lt]
  | _ :: _, [], _ => by simp [str_lt]
  | _ :: _, _ :: _, [] => by simp [str_lt]
  | x :: xs, y :: ys, z :: zs => by
    intro h h'
    simp only [str_lt] at h h' ⊢
    by_cases h1 : x < y
    · by_cases h2 : y < z
      · have : x < z := by omega
        simp [this]
      · by_cases h3 : z < y
        · simp [h2, h3] at h'
        · have : x < z := by omega
          simp [this]
    · by_cases h2 : y < x
      · simp [h1, h2] at h
      · simp only [h1, h2, if_false] at h
        have hxy : x = y := by omega
        subst hxy
        by_cases h3 : x < z
        · simp [h3]
        · by_cases h4 : z < x
          · simp [h3, h4] at h'
          · simp only [h3, h4, if_false] at h' ⊢
            exact str_lt_trans xs ys zs h h'

/-- Not greater means smaller or equal: the order of the strings is total. -/
theorem str_not_lt_iff (a b : Str) : str_lt b a = false ↔ (str_lt a b = true ∨ a = b) := by
  constructor
  · intro h
    by_cases h1 : str_lt a b = true
    · exact Or.inl h1
    · exact Or.inr (str_lt_trichotomy a b (by simpa using h1) h)
  · rintro (h | h)
    · exact str_lt_asymm a b h
    · subst h
      exact str_lt_irrefl a

theorem str_le_trans (a b c : Str) (h1 : str_lt b a = false) (h2 : str_lt c b = false) :
    str_lt c a = false := by
  rcases (str_not_lt_iff a b).1 h1 with h | h
  · rcases (str_not_lt_iff b c).1 h2 with h' | h'
    · exact str_lt_asymm _ _ (str_lt_trans a b c h h')
    · subst h'
      exact h1
  · subst h
    exact h2

/-! ## Lemmas on the de-duplication loop -/

theorem found_in_iff (l : List DesktopEntry) (de : DesktopEntry) :
    found_in l de = true ↔ ∃ entry ∈ l, same_pair entry de := by
  have key : ∀ (l : List DesktopEntry) (b : Bool),
      l.foldl (fun found entry =>
        if entry.name = de.name ∧ entry.exec = de.exec then true else found) b = true ↔
      (b = true ∨ ∃ entry ∈ l, same_pair entry de) := by
    intro l
    induction l with
    | nil => intro b; simp
    | cons x xs ih =>
      intro b
      rw [List.foldl_cons, ih]
      by_cases hx : x.name = de.name ∧ x.exec = de.exec
      · simp [hx, same_pair]
      · simp only [hx, if_false, List.mem_cons, exists_eq_or_imp, same_pair, false_or]
  unfold found_in
  rw [key]
  simp

theorem collect_entries_snoc (parsed : List DesktopEntry) (de : DesktopEntry) :
    collect_entries (parsed ++ [de]) = add_entry (collect_entries parsed) de := by
  simp [collect_entries, List.foldl_append]

theorem not_empty_test (a b : Str) :
    (!a.isEmpty && !b.isEmpty) = true ↔ (a ≠ [] ∧ b ≠ []) := by
  cases a <;> cases b <;> simp

theorem mem_add_entry (l : List DesktopEntry) (de r : DesktopEntry) :
    r ∈ add_entry l de ↔
      r ∈ l ∨ (r = de ∧ de.name ≠ [] ∧ de.exec ≠ [] ∧ ¬ ∃ entry ∈ l, same_pair entry de) := by
  unfold add_entry
  by_cases ht : (!de.name.isEmpty && !de.exec.isEmpty) = true
  · obtain ⟨hn, hx⟩ := (not_empty_test _ _).1 ht
    rw [if_pos ht]
    by_cases hf : found_in l de = true
    · have hex := (found_in_iff l de).1 hf
      simp only [hf, Bool.not_true, Bool.false_eq_true, if_false]
      constructor
      · exact Or.inl
      · rintro (h | ⟨_, _, _, h⟩)
        · exact h
        · exact absurd hex h
    · have hnot : ¬ ∃ entry ∈ l, same_pair entry de := fun h => hf ((found_in_iff l de).2 h)
      simp only [Bool.not_eq_true] at hf
      simp only [hf, Bool.not_false, if_true, List.mem_append, List.mem_singleton]
      constructor
      · rintro (h | h)
        · exact Or.inl h
        · exact Or.inr ⟨h, hn, hx, hnot⟩
      · rintro (h | ⟨h, _⟩)
        · exact Or.inl h
        · exact Or.inr h
  · rw [if_neg ht]
    constructor
    · exact Or.inl
    · rintro (h | ⟨_, hn, hx, _⟩)
      · exact h
      · exact absurd ((not_empty_test _ _).2 ⟨hn, hx⟩) ht

/-- Every collected entry is a parsed one with a name and an exec. -/
theorem collect_entries_sound (parsed : List DesktopEntry) :
    ∀ r ∈ collect_entries parsed, r ∈ parsed ∧ r.name ≠ [] ∧ r.exec ≠ [] := by
  induction parsed using List.reverseRecOn with
  | nil => simp [collect_entries]
  | append_singleton l de ih =>
    intro r hr
    rw [collect_entries_snoc, mem_add_entry] at hr
    rcases hr with hr | ⟨rfl, hn, hx, _⟩
    · obtain ⟨h1, h2, h3⟩ := ih r hr
      exact ⟨List.mem_append_left _ h1, h2, h3⟩
    · exact ⟨by simp, hn, hx⟩

/-- Every parsed entry with a name and an exec has its pair among the collected ones. -/
theorem collect_entries_complete (parsed : List DesktopEntry) :
    ∀ e ∈ parsed, e.name ≠ [] → e.exec ≠ [] → ∃ r ∈ collect_entries parsed, same_pair r e := by
  induction parsed using List.reverseRecOn with
  | nil => simp
  | append_singleton l de ih =>
    intro e he hn hx
    rw [collect_entries_snoc]
    rcases List.mem_append.1 he with he | he
    · obtain ⟨r, hr, hs⟩ := ih e he hn hx
      exact ⟨r, (mem_add_entry _ _ _).2 (Or.inl hr), hs⟩
    · have hde : e = de := by simpa using he
      subst hde
      by_cases hex : ∃ entry ∈ collect_entries l, same_pair entry e
      · obtain ⟨r, hr, hs⟩ := hex
        exact ⟨r, (mem_add_entry _ _ _).2 (Or.inl hr), hs⟩
      · exact ⟨e, (mem_add_entry _ _ _).2 (Or.inr ⟨rfl, hn, hx, hex⟩), rfl, rfl⟩

/-- No two collected entries have the same name and the same exec. -/
theorem collect_entries_pairwise (parsed : List DesktopEntry) :
    (collect_entries parsed).Pairwise (fun a b => ¬ same_pair a b) := by
  induction parsed using List.reverseRecOn with
  | nil => simp [collect_entries]
  | append_singleton l de ih =>
    rw [collect_entries_snoc]
    unfold add_entry
    split
    · split
      · rename_i hf
        have hnot : ¬ ∃ entry ∈ collect_entries l, same_pair entry de := by
          intro h
          have := (found_in_iff _ de).2 h
          simp [this] at hf
        rw [List.pairwise_append]
        refine ⟨ih, by simp, ?_⟩
        intro a ha b hb
        have hbe : b = de := by simpa using hb
        subst hbe
        exact fun hs => hnot ⟨a, ha, hs⟩
      · exact ih
    · exact ih

/-- The collected entry is the first parsed entry with its pair. -/
theorem collect_entries_first (parsed : List DesktopEntry) :
    ∀ r ∈ collect_entries parsed, parsed.find? (fun x => decide (same_pair x r)) = some r := by
  induction parsed using List.reverseRecOn with
  | nil => simp [collect_entries]
  | append_singleton l de ih =>
    intro r hr
    rw [collect_entries_snoc, mem_add_entry] at hr
    rw [List.find?_append]
    rcases hr with hr | ⟨rfl, hn, hx, hnot⟩
    · rw [ih r hr]
      rfl
    · have hnone : l.find? (fun x => decide (same_pair x r)) = none := by
        rw [List.find?_eq_none]
        intro x hx' hs
        have hs' : same_pair x r := by simpa using hs
        have hxn : x.name ≠ [] := by rw [hs'.1]; exact hn
        have hxx : x.exec ≠ [] := by rw [hs'.2]; exact hx
        obtain ⟨q, hq, hqs⟩ := collect_entries_complete l x hx' hxn hxx
        exact hnot ⟨q, hq, hqs.1.trans hs'.1, hqs.2.trans hs'.2⟩
      rw [hnone]
      simp [same_pair]

/-- Among entries with pairwise different pairs, the entries with the pair of `r` are `r`. -/
theorem filter_same_pair (l : List DesktopEntry) (r e : DesktopEntry)
    (hp : l.Pairwise (fun a b => ¬ same_pair a b)) (hr : r ∈ l) (hs : same_pair r e) :
    l.filter (fun x => decide (same_pair x e)) = [r] := by
  induction l with
  | nil => simp at hr
  | cons x xs ih =>
    rw [List.pairwise_cons] at hp
    rcases List.mem_cons.1 hr with hx | hx
    · subst hx
      have hnil : xs.filter (fun x => decide (same_pair x e)) = [] := by
        rw [List.filter_eq_nil_iff]
        intro a ha hsa
        have hsa' : same_pair a e := by simpa using hsa
        exact hp.1 a ha ⟨hs.1.trans hsa'.1.symm, hs.2.trans hsa'.2.symm⟩
      simp [List.filter_cons, hs, hnil]
    · have hxe : ¬ same_pair x e := by
        intro hxe
        exact hp.1 r hx ⟨hxe.1.trans hs.1.symm, hxe.2.trans hs.2.symm⟩
      simp [List.filter_cons, hxe, ih hp.2 hx]

/-! ## Lemmas on the sort -/

theorem std_sort_snoc {α : Type} (comp : α → α → Bool) (l : List α) (a : α) :
    std_sort comp (l ++ [a]) = linear_insert comp a (std_sort comp l) := by
  simp [std_sort, List.foldl_append]

theorem linear_insert_perm {α : Type} (comp : α → α → Bool) (a : α) (l : List α) :
    (linear_insert comp a l).Perm (a :: l) := by
  induction l with
  | nil => simp [linear_insert]
  | cons x xs ih =>
    unfold linear_insert
    split
    · exact List.Perm.refl _
    · exact (List.Perm.cons x ih).trans (List.Perm.swap a x xs)

theorem std_sort_perm {α : Type} (comp : α → α → Bool) (l : List α) :
    (std_sort comp l).Perm l := by
  induction l using List.reverseRecOn with
  | nil => simp [std_sort]
  | append_singleton l a ih =>
    rw [std_sort_snoc]
    exact ((linear_insert_perm comp a _).trans (List.Perm.cons a ih)).trans
      (List.perm_append_singleton a l).symm

theorem linear_insert_ordered {α : Type} (comp : α → α → Bool)
    (hasymm : ∀ a b, comp a b = true → comp b a = false)
    (htrans : ∀ a b c, comp b a = false → comp c b = false → comp c a = false)
    (a : α) (l : List α) (hl : l.Pairwise (fun x y => comp y x = false)) :
    (linear_insert comp a l).Pairwise (fun x y => comp y x = false) := by
  induction l with
  | nil => simp [linear_insert]
  | cons x xs ih =>
    rw [List.pairwise_cons] at hl
    unfold linear_insert
    split
    · rename_i hax
      refine List.pairwise_cons.2 ⟨?_, List.pairwise_cons.2 hl⟩
      intro y hy
      rcases List.mem_cons.1 hy with rfl | hy
      · exact hasymm _ _ hax
      · exact htrans a x y (hasymm _ _ hax) (hl.1 y hy)
    · rename_i hax
      refine List.pairwise_cons.2 ⟨?_, ih hl.2⟩
      intro y hy
      rcases List.mem_cons.1 ((linear_insert_perm comp a xs).mem_iff.1 hy) with rfl | hy
      · simpa using hax
      · exact hl.1 y hy

theorem std_sort_ordered {α : Type} (comp : α → α → Bool)
    (hasymm : ∀ a b, comp a b = true → comp b a = false)
    (htrans : ∀ a b c, comp b a = false → comp c b = false → comp c a = false)
    (l : List α) : (std_sort comp l).Pairwise (fun x y => comp y x = false) := by
  induction l using List.reverseRecOn with
  | nil => simp [std_sort]
  | append_singleton l a ih =>
    rw [std_sort_snoc]
    exact linear_insert_ordered comp hasymm htrans a _ ih

theorem sorted_entries_perm (parsed : List DesktopEntry) :
    (sorted_entries parsed).Perm (collect_entries parsed) :=
  std_sort_perm name_lt _

theorem sorted_entries_ordered (parsed : List DesktopEntry) :
    (sorted_entries parsed).Pairwise (fun a b => str_lt b.name a.name = false) :=
  std_sort_ordered name_lt (fun a b h => str_lt_asymm a.name b.name h)
    (fun a b c h1 h2 => str_le_trans a.name b.name c.name h1 h2) _

theorem sorted_entries_pairwise (parsed : List DesktopEntry) :
    (sorted_entries parsed).Pairwise (fun a b => ¬ same_pair a b) :=
  ((sorted_entries_perm parsed).pairwise_iff
    (fun h hs => h ⟨hs.1.symm, hs.2.symm⟩)).2 (collect_entries_pairwise parsed)

/-- Pairwise different pairs, read by positions. -/
theorem pairwise_positions (l : List DesktopEntry)
    (hp : l.Pairwise (fun a b => ¬ same_pair a b)) (i j : Nat) (hi : i < l.length)
    (hj : j < l.length) (hij : i ≠ j) : ¬ (l[i].name = l[j].name ∧ l[i].exec = l[j].exec) := by
  rw [List.pairwise_iff_getElem] at hp
  rcases Nat.lt_or_gt_of_ne hij with h | h
  · exact hp i j hi hj h
  · intro hs
    exact hp j i hj hi h ⟨hs.1.symm, hs.2.symm⟩

/-- An attach loop attaches the boxes of the vector, each once, in the order of the vector. -/
theorem attach_all_boxes {β : Type} (C : Int) (boxes : List β) :
    (attach_all C boxes).map Attached.box = boxes := by
  unfold attach_all
  induction boxes using List.reverseRecOn with
  | nil => simp
  | append_singleton l b ih =>
    rw [List.foldl_append, List.foldl_cons, List.foldl_nil]
    generalize l.foldl (attach_step C) { attached := [], column := 0, row := 0 } = prev at *
    unfold attach_step
    split <;> simp [ih]

/-! ## Entry discovery: the claims -/

/-- Claim C1: whatever the parsed entries are, the list `desktop_entries` that the
de-duplication loop leaves, and the same list after the sort, hold no two records at
different positions with the same name and the same exec. -/
theorem dedup_no_two_records_same_pair (parsed l : List DesktopEntry)
    (hl : l = collect_entries parsed ∨ l = sorted_entries parsed) (i j : Nat)
    (a b : DesktopEntry) (hij : i ≠ j) (ha : l[i]? = some a) (hb : l[j]? = some b) :
    ¬ (a.name = b.name ∧ a.exec = b.exec) := by
  have hp : l.Pairwise (fun a b => ¬ same_pair a b) := by
    rcases hl with rfl | rfl
    · exact collect_entries_pairwise parsed
    · exact sorted_entries_pairwise parsed
  obtain ⟨hi, rfl⟩ := List.getElem?_eq_some.1 ha
  obtain ⟨hj, rfl⟩ := List.getElem?_eq_some.1 hb
  exact pairwise_positions l hp i j hi hj hij

/-- Claim C1 at the sample run: the loop keeps Foo and Bar, whose pairs differ. -/
theorem dedup_no_two_records_same_pair_witness :
    collect_entries sample_parsed = [entry_foo, entry_bar] ∧
      ¬ (entry_foo.name = entry_bar.name ∧ entry_foo.exec = entry_bar.exec) :=
  ⟨by decide,
    dedup_no_two_records_same_pair sample_parsed (collect_entries sample_parsed) (Or.inl rfl)
      0 1 entry_foo entry_bar (by decide) (by decide) (by decide)⟩

/-- Claim C2: first occurrence wins. For a parsed entry `e` with a name and an exec, the
earliest parsed entry with the pair of `e` is the one and only record with that pair in
`desktop_entries`, before and after the sort; its icon and comment are kept, the later
entries with the pair are dropped. -/
theorem first_occurrence_wins (parsed : List DesktopEntry) (e : DesktopEntry)
    (he : e ∈ parsed) (hn : e.name ≠ []) (hx : e.exec ≠ []) :
    ∃ before first after, parsed = before ++ first :: after ∧ same_pair first e ∧
      (∀ a ∈ before, ¬ same_pair a e) ∧
      (collect_entries parsed).filter (fun r => decide (same_pair r e)) = [first] ∧
      (sorted_entries parsed).filter (fun r => decide (same_pair r e)) = [first] := by
  obtain ⟨r, hr, hs⟩ := collect_entries_complete parsed e he hn hx
  have hfind := collect_entries_first parsed r hr
  obtain ⟨_, before, after, hsplit, hbefore⟩ := List.find?_eq_some.1 hfind
  have hfilter := filter_same_pair _ r e (collect_entries_pairwise parsed) hr hs
  refine ⟨before, r, after, hsplit, hs, ?_, hfilter, ?_⟩
  · intro a ha hae
    have h1 := hbefore a ha
    have h2 : same_pair a r := ⟨hae.1.trans hs.1.symm, hae.2.trans hs.2.symm⟩
    simp [h2] at h1
  · have hperm := (sorted_entries_perm parsed).filter (fun r => decide (same_pair r e))
    rw [hfilter] at hperm
    exact List.perm_singleton.1 hperm

/-- Claim C2 at the sample run: of the two Foo entries the first one stays, with its
icon and its comment. -/
theorem first_occurrence_wins_witness :
    (sorted_entries sample_parsed).filter (fun r => decide (same_pair r entry_foo_later))
        = [entry_foo] ∧
      ∃ before first after, sample_parsed = before ++ first :: after ∧
        same_pair first entry_foo_later ∧ (∀ a ∈ before, ¬ same_pair a entry_foo_later) ∧
        (collect_entries sample_parsed).filter (fun r => decide (same_pair r entry_foo_later))
          = [first] ∧
        (sorted_entries sample_parsed).filter (fun r => decide (same_pair r entry_foo_later))
          = [first] :=
  ⟨by decide,
    first_occurrence_wins sample_parsed entry_foo_later (by decide) (by decide) (by decide)⟩

/-- Claim C3: the (name, exec) pairs of the final list are exactly the pairs of the parsed
entries whose name and exec are both non-empty; no record of the final list has an empty
name or an empty exec. -/
theorem final_pairs_are_the_nonempty_pairs (parsed : List DesktopEntry) :
    (∀ n x : Str, (∃ r ∈ sorted_entries parsed, r.name = n ∧ r.exec = x) ↔
      (∃ e ∈ parsed, e.name = n ∧ e.exec = x ∧ n ≠ [] ∧ x ≠ [])) ∧
    (∀ r ∈ sorted_entries parsed, r.name ≠ [] ∧ r.exec ≠ []) := by
  have hmem : ∀ r, r ∈ sorted_entries parsed ↔ r ∈ collect_entries parsed :=
    fun r => (sorted_entries_perm parsed).mem_iff
  constructor
  · intro n x
    constructor
    · rintro ⟨r, hr, rfl, rfl⟩
      obtain ⟨h1, h2, h3⟩ := collect_entries_sound parsed r ((hmem r).1 hr)
      exact ⟨r, h1, rfl, rfl, h2, h3⟩
    · rintro ⟨e, he, rfl, rfl, hn, hx⟩
      obtain ⟨r, hr, hs⟩ := collect_entries_complete parsed e he hn hx
      exact ⟨r, (hmem r).2 hr, hs.1, hs.2⟩
  · intro r hr
    exact (collect_entries_sound parsed r ((hmem r).1 hr)).2

/-- Claim C4: the list handed to the grid is ordered by name, each name smaller than or
equal to the later ones under the byte-wise `operator<` of `std::string`, and it is a
permutation of the filtered, de-duplicated list; the boxes are attached in that order.
The parsed records Foo, Bar come out as Bar, Foo, and an upper-case Z sorts before a
lower-case a. -/
theorem final_list_sorted_by_name (parsed : List DesktopEntry) (num_col : Int) :
    (sorted_entries parsed).Pairwise
        (fun a b => str_lt a.name b.name = true ∨ a.name = b.name) ∧
      (sorted_entries parsed).Perm (collect_entries parsed) ∧
      (attach_apps num_col (all_boxes (sorted_entries parsed))).map Attached.box =
        (sorted_entries parsed).map make_box ∧
      sorted_entries [entry_foo, entry_bar] = [entry_bar, entry_foo] ∧
      str_lt [90] [97] = true := by
  refine ⟨?_, sorted_entries_perm parsed, attach_all_boxes num_col _, by decide, by decide⟩
  exact (sorted_entries_ordered parsed).imp (fun h => (str_not_lt_iff _ _).1 h)

/-! ## Grid placement -/

/-- The counters after one more box, when the column has not reached the last one. -/
theorem wrap_step_same_row (C k : Int) (hC : 1 ≤ C) (hlt : k % C < C - 1) :
    (k + 1) % C = k % C + 1 ∧ (k + 1) / C = k / C := by
  have hpos : 0 < C := by omega
  have h0 : 0 ≤ k % C := Int.emod_nonneg k (by omega)
  have hdecomp : k % C + C * (k / C) = k := Int.emod_add_ediv k C
  have h := (@Int.ediv_emod_unique (k + 1) C (k % C + 1) (k / C) hpos).2
    ⟨by omega, by omega, by omega⟩
  exact ⟨h.2, h.1⟩

/-- The counters after one more box, when the column is the last one. -/
theorem wrap_step_next_row (C k : Int) (hC : 1 ≤ C) (hge : ¬ k % C < C - 1) :
    (k + 1) % C = 0 ∧ (k + 1) / C = k / C + 1 := by
  have hpos : 0 < C := by omega
  have hlt : k % C < C := Int.emod_lt_of_pos k hpos
  have hdecomp : k % C + C * (k / C) = k := Int.emod_add_ediv k C
  have hmul : C * (k / C + 1) = C * (k / C) + C := by ring
  have h := (@Int.ediv_emod_unique (k + 1) C 0 (k / C + 1) hpos).2
    ⟨by omega, by omega, by omega⟩
  exact ⟨h.2, h.1⟩

theorem attach_foldl_snoc {β : Type} (C : Int) (st : AttachState β) (boxes : List β) (b : β) :
    (boxes ++ [b]).foldl (attach_step C) st = attach_step C (boxes.foldl (attach_step C) st) b := by
  simp [List.foldl_append]

/-- The state of an attach loop after the boxes: the counters are the quotient and the
remainder of the number of boxes, and the box at index `i` went to row `i / C`, column
`i % C`. -/
theorem attach_loop_state {β : Type} (C : Int) (hC : 1 ≤ C) (boxes : List β) :
    let st := boxes.foldl (attach_step C) { attached := [], column := 0, row := 0 }
    st.column = (boxes.length : Int) % C ∧ st.row = (boxes.length : Int) / C ∧
      st.attached.length = boxes.length ∧
      ∀ i : Nat, st.attached[i]? =
        (boxes[i]?).map (fun b => { box := b, column := (i : Int) % C, row := (i : Int) / C }) := by
  induction boxes using List.reverseRecOn with
  | nil => simp
  | append_singleton l b ih =>
    intro st
    have hst : st = attach_step C
        (l.foldl (attach_step C) { attached := [], column := 0, row := 0 }) b :=
      attach_foldl_snoc C _ l b
    obtain ⟨hcol, hrow, hlen, hget⟩ := ih
    generalize l.foldl (attach_step C) { attached := [], column := 0, row := 0 } = prev at *
    have hatt : st.attached = prev.attached ++
        [{ box := b, column := (l.length : Int) % C, row := (l.length : Int) / C }] := by
      rw [hst]
      unfold attach_step
      split <;> simp [hcol, hrow]
    have hcounters : st.column = ((l.length : Int) + 1) % C ∧
        st.row = ((l.length : Int) + 1) / C := by
      rw [hst]
      unfold attach_step
      by_cases hlt : prev.column < C - 1
      · have h := wrap_step_same_row C l.length hC (by rw [← hcol]; exact hlt)
        simp only [hlt, if_true]
        rw [h.1, h.2, hcol, hrow]
        exact ⟨rfl, rfl⟩
      · have h := wrap_step_next_row C l.length hC (by rw [← hcol]; exact hlt)
        simp only [hlt, if_false]
        rw [h.1, h.2, hrow]
        exact ⟨rfl, rfl⟩
    refine ⟨by simpa using hcounters.1, by simpa using hcounters.2, by simp [hatt, hlen], ?_⟩
    intro i
    rw [hatt]
    rcases Nat.lt_trichotomy i l.length with hi | hi | hi
    · rw [List.getElem?_append_left (by omega), List.getElem?_append_left hi]
      exact hget i
    · subst hi
      rw [List.getElem?_append_right (by omega), List.getElem?_append_right (by omega)]
      simp [hlen]
    · rw [List.getElem?_append_right (by omega), List.getElem?_append_right (by omega)]
      have h1 : i - prev.attached.length ≠ 0 := by omega
      have h2 : i - l.length ≠ 0 := by omega
      rw [List.getElem?_eq_none (by simp; omega), List.getElem?_eq_none (by simp; omega)]
      rfl

/-- The call of `attach` for the box at index `i`. -/
theorem attach_all_get {β : Type} (C : Int) (hC : 1 ≤ C) (boxes : List β) (i : Nat)
    (hi : i < boxes.length) :
    (attach_all C boxes)[i]? =
      some { box := boxes[i], column := (i : Int) % C, row := (i : Int) / C } := by
  have h := (attach_loop_state C hC boxes).2.2.2 i
  unfold attach_all
  rw [h, List.getElem?_eq_getElem hi]
  rfl

theorem attach_all_length {β : Type} (C : Int) (hC : 1 ≤ C) (boxes : List β) :
    (attach_all C boxes).length = boxes.length :=
  (attach_loop_state C hC boxes).2.2.1

/-- Claim C5: column wrapping. For a column count `C` from 1 to 99 and any list of boxes,
the counter loop makes one call of `attach` per box, and the box at linear index `i` is
attached at row `i / C` and column `i mod C`. -/
theorem column_wrapping {β : Type} (C : Int) (hC1 : 1 ≤ C) (_hC99 : C ≤ 99) (boxes : List β)
    (i : Nat) (hi : i < boxes.length) :
    (attach_all C boxes).length = boxes.length ∧
      (attach_all C boxes)[i]? =
        some { box := boxes[i], column := (i : Int) % C, row := (i : Int) / C } :=
  ⟨attach_all_length C hC1 boxes, attach_all_get C hC1 boxes i hi⟩

/-- Claim C5 with three columns and five boxes: the box of index 4 is in row 1, column 1. -/
theorem column_wrapping_witness :
    attach_all 3 [10, 11, 12, 13, 14] =
        [⟨10, 0, 0⟩, ⟨11, 1, 0⟩, ⟨12, 2, 0⟩, ⟨13, 0, 1⟩, ⟨14, 1, 1⟩] ∧
      ((attach_all 3 [10, 11, 12, 13, 14]).length = 5 ∧
        (attach_all 3 [10, 11, 12, 13, 14])[4]? = some ⟨14, 1, 1⟩) :=
  ⟨by decide, column_wrapping 3 (by decide) (by decide) [10, 11, 12, 13, 14] 4 (by decide)⟩

/-! ## Favourite boxes -/

theorem already_added_iff (fav_boxes : List AppBox) (exec : Str) :
    already_added fav_boxes exec = true ↔ ∃ b ∈ fav_boxes, b.exec = exec := by
  have key : ∀ (l : List AppBox) (added : Bool),
      l.foldl (fun added app_box => if app_box.exec = exec then true else added) added = true ↔
      (added = true ∨ ∃ b ∈ l, b.exec = exec) := by
    intro l
    induction l with
    | nil => intro added; simp
    | cons x xs ih =>
      intro added
      rw [List.foldl_cons, ih]
      by_cases hx : x.exec = exec
      · simp [hx]
      · simp only [hx, if_false, List.mem_cons, exists_eq_or_imp, false_or]
  unfold already_added
  rw [key]
  simp

theorem fav_step_execs (entry : CacheEntry) (fb : List AppBox) (it : DesktopEntry) (x : Str) :
    x ∈ (fav_step entry fb it).map AppBox.exec ↔
      x ∈ fb.map AppBox.exec ∨ (x = entry.exec ∧ it.exec = x) := by
  unfold fav_step
  by_cases he : it.exec = entry.exec
  · rw [if_pos he]
    by_cases ha : already_added fb it.exec = true
    · obtain ⟨b, hb, hbe⟩ := (already_added_iff fb it.exec).1 ha
      simp only [ha, Bool.not_true, Bool.false_eq_true, if_false]
      constructor
      · exact Or.inl
      · rintro (h | ⟨h1, _⟩)
        · exact h
        · rw [h1, ← he, ← hbe]
          exact List.mem_map_of_mem _ hb
    · simp only [Bool.not_eq_true] at ha
      simp only [ha, Bool.not_false, if_true, List.map_append, List.mem_append, List.map_cons,
        List.map_nil, List.mem_singleton, make_box]
      constructor
      · rintro (h | h)
        · exact Or.inl h
        · exact Or.inr ⟨h.trans he, h.symm⟩
      · rintro (h | ⟨_, h⟩)
        · exact Or.inl h
        · exact Or.inr h.symm
  · rw [if_neg he]
    constructor
    · exact Or.inl
    · rintro (h | ⟨h1, h2⟩)
      · exact h
      · exact absurd (h2.trans h1) he

theorem fav_step_nodup (entry : CacheEntry) (fb : List AppBox) (it : DesktopEntry)
    (h : (fb.map AppBox.exec).Nodup) : ((fav_step entry fb it).map AppBox.exec).Nodup := by
  unfold fav_step
  split
  · split
    · rename_i ha
      have hnot : ¬ ∃ b ∈ fb, b.exec = it.exec := by
        intro hex
        have := (already_added_iff fb it.exec).2 hex
        simp [this] at ha
      rw [List.map_append, List.nodup_append]
      refine ⟨h, by simp, ?_⟩
      intro a ha1 ha2
      have ha3 : a = it.exec := by simpa [make_box] using ha2
      obtain ⟨b, hb, hbe⟩ := List.mem_map.1 ha1
      exact hnot ⟨b, hb, hbe.trans ha3⟩
    · exact h
  · exact h

theorem fav_inner_execs (entry : CacheEntry) (des : List DesktopEntry) (fb : List AppBox)
    (x : Str) :
    x ∈ (des.foldl (fun fb it => fav_step entry fb it) fb).map AppBox.exec ↔
      x ∈ fb.map AppBox.exec ∨ (x = entry.exec ∧ ∃ it ∈ des, it.exec = x) := by
  induction des generalizing fb with
  | nil => simp
  | cons d ds ih =>
    rw [List.foldl_cons, ih, fav_step_execs]
    simp only [List.mem_cons, exists_eq_or_imp]
    tauto

theorem fav_inner_nodup (entry : CacheEntry) (des : List DesktopEntry) (fb : List AppBox)
    (h : (fb.map AppBox.exec).Nodup) :
    ((des.foldl (fun fb it => fav_step entry fb it) fb).map AppBox.exec).Nodup := by
  induction des generalizing fb with
  | nil => simpa using h
  | cons d ds ih =>
    rw [List.foldl_cons]
    exact ih _ (fav_step_nodup entry fb d h)

theorem fav_outer_execs (favourites : List CacheEntry) (des : List DesktopEntry)
    (fb : List AppBox) (x : Str) :
    x ∈ (favourites.foldl
        (fun fav_boxes entry => des.foldl (fun fb it => fav_step entry fb it) fav_boxes)
        fb).map AppBox.exec ↔
      x ∈ fb.map AppBox.exec ∨
        ((∃ entry ∈ favourites, entry.exec = x) ∧ ∃ it ∈ des, it.exec = x) := by
  induction favourites generalizing fb with
  | nil => simp
  | cons f fs ih =>
    rw [List.foldl_cons, ih, fav_inner_execs]
    simp only [List.mem_cons, exists_eq_or_imp]
    constructor
    · rintro ((h | ⟨h1, h2⟩) | ⟨h1, h2⟩)
      · exact Or.inl h
      · exact Or.inr ⟨Or.inl h1.symm, h2⟩
      · exact Or.inr ⟨Or.inr h1, h2⟩
    · rintro (h | ⟨h1 | h1, h2⟩)
      · exact Or.inl (Or.inl h)
      · exact Or.inl (Or.inr ⟨h1.symm, h2⟩)
      · exact Or.inr ⟨h1, h2⟩

theorem fav_outer_nodup (favourites : List CacheEntry) (des : List DesktopEntry)
    (fb : List AppBox) (h : (fb.map AppBox.exec).Nodup) :
    ((favourites.foldl
        (fun fav_boxes entry => des.foldl (fun fb it => fav_step entry fb it) fav_boxes)
        fb).map AppBox.exec).Nodup := by
  induction favourites generalizing fb with
  | nil => simpa using h
  | cons f fs ih =>
    rw [List.foldl_cons]
    exact ih _ (fav_inner_nodup f des fb h)

/-- The execs of the favourite boxes, when the boxes are built. -/
theorem build_fav_boxes_execs (favourites : List CacheEntry) (des : List DesktopEntry)
    (x : Str) :
    x ∈ (build_fav_boxes true favourites des).map AppBox.exec ↔
      ((∃ entry ∈ favourites, entry.exec = x) ∧ ∃ it ∈ des, it.exec = x) := by
  unfold build_fav_boxes
  cases favourites with
  | nil => simp
  | cons f fs =>
    have hlen : (true && decide ((f :: fs).length > 0)) = true := by simp
    rw [if_pos hlen, fav_outer_execs]
    simp

theorem build_fav_boxes_nodup (favs : Bool) (favourites : List CacheEntry)
    (des : List DesktopEntry) :
    ((build_fav_boxes favs favourites des).map AppBox.exec).Nodup := by
  unfold build_fav_boxes
  split
  · exact fav_outer_nodup favourites des [] (by simp)
  · simp

theorem build_fav_boxes_subset (favs : Bool) (favourites : List CacheEntry)
    (des : List DesktopEntry) :
    (build_fav_boxes favs favourites des).map AppBox.exec ⊆ favourites.map CacheEntry.exec := by
  intro x hx
  cases favs with
  | false => simp [build_fav_boxes] at hx
  | true =>
    obtain ⟨⟨entry, he, hex⟩, _⟩ := (build_fav_boxes_execs favourites des x).1 hx
    exact List.mem_map.2 ⟨entry, he, hex⟩

theorem build_fav_boxes_length (favs : Bool) (favourites : List CacheEntry)
    (des : List DesktopEntry) :
    (build_fav_boxes favs favourites des).length ≤ favourites.length := by
  have h := ((build_fav_boxes_nodup favs favourites des).subperm
    (build_fav_boxes_subset favs favourites des)).length_le
  simpa using h

/-! ## Favourites: the claims -/

/-- The cast keeps a size that fits an int. -/
theorem to_int_of_lt (n : Nat) (h : n < 2147483648) : to_int n = (n : Int) := by
  unfold to_int
  omega

/-- Claim C6, as stated for every non-empty cache, fails: for a cache of 2^31 entries
the cast `(int)cache.size()` is -2147483648, which is not `>= num_col` for six columns,
so `get_favourites` is called with n = -2147483648 and not with min(6, 2^31) = 6. -/
theorem favourites_count_counterexample :
    favourites_request 2147483648 6 = some (-2147483648) ∧
      favourites_request 2147483648 6 ≠ some (min 6 ((2147483648 : Nat) : Int)) := by
  decide

/-- Claim C6, amended: for a non-empty cache of fewer than 2^31 entries `main` calls
`get_favourites` with `n = min(num_col, cache.size())`, the column count or the cache
size if that is smaller; for an empty cache the call is not made and the favourites
vector stays empty. -/
theorem favourites_count {Cache : Type} (size : Cache → Nat)
    (get_favourites : Cache → Int → List CacheEntry) (cache : Cache) (num_col : Int)
    (hbound : size cache < 2147483648) :
    (0 < size cache →
      favourites_request (size cache) num_col = some (min num_col (size cache : Int)) ∧
      main_favourites size get_favourites cache num_col =
        get_favourites cache (min num_col (size cache : Int))) ∧
    (size cache = 0 →
      favourites_request (size cache) num_col = none ∧
      main_favourites size get_favourites cache num_col = []) := by
  have hn : favourites_n (size cache) num_col = min num_col (size cache : Int) := by
    unfold favourites_n
    rw [to_int_of_lt (size cache) hbound]
    split
    · rename_i h
      exact (min_eq_left h).symm
    · rename_i h
      exact (min_eq_right (by omega)).symm
  constructor
  · intro hpos
    have hreq : favourites_request (size cache) num_col =
        some (min num_col (size cache : Int)) := by
      unfold favourites_request
      rw [if_pos hpos, hn]
    exact ⟨hreq, by unfold main_favourites; rw [hreq]⟩
  · intro hzero
    have hreq : favourites_request (size cache) num_col = none := by
      unfold favourites_request
      rw [if_neg (by omega)]
    exact ⟨hreq, by unfold main_favourites; rw [hreq]⟩

/-- Claim C6 at sample caches: a cache of two entries asks for min(1, 2) = 1 favourite
with one column and for min(6, 2) = 2 with six columns; an empty cache asks for none. -/
theorem favourites_count_witness :
    (favourites_request (List.length [fav_gone, fav_foo]) 1 =
        some (min 1 ((List.length [fav_gone, fav_foo] : Nat) : Int)) ∧
      main_favourites List.length sample_get_favourites [fav_gone, fav_foo] 1 =
        sample_get_favourites [fav_gone, fav_foo]
          (min 1 ((List.length [fav_gone, fav_foo] : Nat) : Int))) ∧
    (favourites_request (List.length [fav_gone, fav_foo]) 6 =
        some (min 6 ((List.length [fav_gone, fav_foo] : Nat) : Int)) ∧
      main_favourites List.length sample_get_favourites [fav_gone, fav_foo] 6 =
        sample_get_favourites [fav_gone, fav_foo]
          (min 6 ((List.length [fav_gone, fav_foo] : Nat) : Int))) ∧
    (favourites_request (List.length ([] : List CacheEntry)) 6 = none ∧
      main_favourites List.length sample_get_favourites [] 6 = []) ∧
    min 1 ((List.length [fav_gone, fav_foo] : Nat) : Int) = 1 ∧
    min 6 ((List.length [fav_gone, fav_foo] : Nat) : Int) = 2 ∧
    sample_get_favourites [fav_gone, fav_foo] 1 = [fav_gone] :=
  ⟨(favourites_count List.length sample_get_favourites [fav_gone, fav_foo] 1
      (by decide)).1 (by decide),
    (favourites_count List.length sample_get_favourites [fav_gone, fav_foo] 6
      (by decide)).1 (by decide),
    (favourites_count List.length sample_get_favourites [] 6 (by decide)).2 (by decide),
    by decide, by decide, by decide⟩

/-- Claim C7, as stated for every run of `main`, fails: without the option `-f` the flag
`favs` is false and no favourite box is built, although the exec foo is both in the
favourites and in a discovered record. -/
theorem fav_boxes_join_counterexample :
    ¬ ([102, 111, 111] ∈ (build_fav_boxes false [fav_foo] [entry_foo]).map AppBox.exec ↔
      ((∃ entry ∈ [fav_foo], entry.exec = [102, 111, 111]) ∧
        ∃ it ∈ [entry_foo], it.exec = [102, 111, 111])) := by
  decide

/-- Claim C7, amended: when the favourites are displayed (`favs` true, the option `-f`),
the exec values of the favourite boxes are exactly the exec values that occur both in an
entry of the favourites and in a discovered record, so a stale entry whose exec matches no
record gives no box; when `favs` is false no favourite box is built. -/
theorem fav_boxes_join (favourites : List CacheEntry) (desktop_entries : List DesktopEntry) :
    (∀ x : Str, x ∈ (build_fav_boxes true favourites desktop_entries).map AppBox.exec ↔
      ((∃ entry ∈ favourites, entry.exec = x) ∧ ∃ it ∈ desktop_entries, it.exec = x)) ∧
    (∀ entry ∈ favourites, (∀ it ∈ desktop_entries, it.exec ≠ entry.exec) →
      ∀ b ∈ build_fav_boxes true favourites desktop_entries, b.exec ≠ entry.exec) ∧
    build_fav_boxes false favourites desktop_entries = [] := by
  refine ⟨build_fav_boxes_execs favourites desktop_entries, ?_, by simp [build_fav_boxes]⟩
  intro entry _ hstale b hb hbe
  have hx : entry.exec ∈ (build_fav_boxes true favourites desktop_entries).map AppBox.exec :=
    List.mem_map.2 ⟨b, hb, hbe⟩
  obtain ⟨_, it, hit, hite⟩ := (build_fav_boxes_execs favourites desktop_entries _).1 hx
  exact hstale it hit hite

/-- Claim C10: the favourite boxes have pairwise different exec values, so they are at
most as many as the entries of the favourites; and when the favourites are at most
`num_col` (at least 1), the box of index `i` is attached in row 0, column `i`. -/
theorem fav_boxes_distinct_first_row (favs : Bool) (favourites : List CacheEntry)
    (desktop_entries : List DesktopEntry) (num_col : Int) :
    ((build_fav_boxes favs favourites desktop_entries).map AppBox.exec).Nodup ∧
    (build_fav_boxes favs favourites desktop_entries).length ≤ favourites.length ∧
    (1 ≤ num_col → (favourites.length : Int) ≤ num_col →
      (attach_favs favs favourites num_col
          (build_fav_boxes favs favourites desktop_entries)).length =
        (build_fav_boxes favs favourites desktop_entries).length ∧
      ∀ (i : Nat) (hi : i < (build_fav_boxes favs favourites desktop_entries).length),
        (attach_favs favs favourites num_col
            (build_fav_boxes favs favourites desktop_entries))[i]? =
          some { box := (build_fav_boxes favs favourites desktop_entries)[i],
                 column := (i : Int), row := 0 }) := by
  refine ⟨build_fav_boxes_nodup favs favourites desktop_entries,
    build_fav_boxes_length favs favourites desktop_entries, ?_⟩
  intro h1 hle
  have hlen := build_fav_boxes_length favs favourites desktop_entries
  by_cases hg : (favs && decide (favourites.length > 0)) = true
  · have hatt : attach_favs favs favourites num_col
        (build_fav_boxes favs favourites desktop_entries) =
        attach_all num_col (build_fav_boxes favs favourites desktop_entries) := by
      unfold attach_favs
      rw [if_pos hg]
    rw [hatt]
    refine ⟨attach_all_length num_col h1 _, ?_⟩
    intro i hi
    rw [attach_all_get num_col h1 _ i hi]
    have hlt : (i : Int) < num_col := by omega
    rw [Int.emod_eq_of_lt (by omega) hlt, Int.ediv_eq_zero_of_lt (by omega) hlt]
  · have hnil : build_fav_boxes favs favourites desktop_entries = [] := by
      unfold build_fav_boxes
      rw [if_neg hg]
    have hatt : attach_favs favs favourites num_col
        (build_fav_boxes favs favourites desktop_entries) = [] := by
      unfold attach_favs
      rw [if_neg hg]
    rw [hatt, hnil]
    refine ⟨rfl, ?_⟩
    intro i hi
    simp at hi

/-- Claim C10 at a sample run: two favourites, one of them stale, six columns; the one
box is attached at row 0, column 0. -/
theorem fav_boxes_distinct_first_row_witness :
    build_fav_boxes true [fav_gone, fav_foo] (sorted_entries sample_parsed)
        = [make_box entry_foo] ∧
      attach_favs true [fav_gone, fav_foo] 6
          (build_fav_boxes true [fav_gone, fav_foo] (sorted_entries sample_parsed))
        = [⟨make_box entry_foo, 0, 0⟩] ∧
      (attach_favs true [fav_gone, fav_foo] 6
          (build_fav_boxes true [fav_gone, fav_foo] (sorted_entries sample_parsed))).length =
        (build_fav_boxes true [fav_gone, fav_foo] (sorted_entries sample_parsed)).length :=
  ⟨by decide, by decide,
    ((fav_boxes_distinct_first_row true [fav_gone, fav_foo] (sorted_entries sample_parsed)
      6).2.2 (by decide) (by decide)).1⟩

/-! ## Options: the claims -/

/-- The test `o >= 0.0 && o <= 1.0` holds exactly for the finite values from 0 to 1. -/
theorem opacity_test_iff (o : Double) :
    (Double.le (.finite 0) o && Double.le o (.finite 1)) = true ↔
      ∃ q : ℚ, o = .finite q ∧ 0 ≤ q ∧ q ≤ 1 := by
  cases o with
  | finite q => simp [Double.le]
  | pos_inf => simp [Double.le]
  | neg_inf => simp [Double.le]
  | nan => simp [Double.le]

/-- Claim C8: for a `-n` argument that `std::stoi` reads as `n`, `num_col` is set to `n`
when `1 <= n <= 99` and only then; for an `n` out of the range, and for an argument that
is not read, a message is printed, `num_col` keeps its value and the handler returns, so
a `num_col` within 1..99 stays within 1..99. -/
theorem column_count_validation (stoi : Str → Option Int) (cols : Str) (num_col : Int)
    (hne : cols ≠ []) :
    (∀ n : Int, stoi cols = some n →
      ((1 ≤ n ∧ n ≤ 99) → handle_cols stoi cols num_col = { value := n, printed := [] }) ∧
      (¬ (1 ≤ n ∧ n ≤ 99) → handle_cols stoi cols num_col =
        { value := num_col, printed := ["\nERROR: Columns must be in range 1 - 99\n\n"] }) ∧
      ((1 ≤ num_col ∧ num_col ≤ 99) →
        ((handle_cols stoi cols num_col).value = n ↔ (1 ≤ n ∧ n ≤ 99)))) ∧
    (stoi cols = none → handle_cols stoi cols num_col =
      { value := num_col, printed := ["\nERROR: Invalid number of columns\n\n"] }) ∧
    ((1 ≤ num_col ∧ num_col ≤ 99) →
      1 ≤ (handle_cols stoi cols num_col).value ∧ (handle_cols stoi cols num_col).value ≤ 99) := by
  have hempty : (!cols.isEmpty) = true := by
    cases cols with
    | nil => exact absurd rfl hne
    | cons c cs => rfl
  have hin : ∀ n : Int, stoi cols = some n → (1 ≤ n ∧ n ≤ 99) →
      handle_cols stoi cols num_col = { value := n, printed := [] } := by
    intro n hs hr
    have ht : (decide (n > 0) && decide (n < 100)) = true := by
      simp only [Bool.and_eq_true, decide_eq_true_eq]
      omega
    unfold handle_cols
    rw [if_pos hempty, hs]
    simp only [ht, if_true]
  have hout : ∀ n : Int, stoi cols = some n → ¬ (1 ≤ n ∧ n ≤ 99) →
      handle_cols stoi cols num_col =
        { value := num_col, printed := ["\nERROR: Columns must be in range 1 - 99\n\n"] } := by
    intro n hs hr
    have ht : ¬ (decide (n > 0) && decide (n < 100)) = true := by
      simp only [Bool.and_eq_true, decide_eq_true_eq]
      omega
    unfold handle_cols
    rw [if_pos hempty, hs]
    simp only [ht, Bool.false_eq_true, if_false]
  have hnone : stoi cols = none → handle_cols stoi cols num_col =
      { value := num_col, printed := ["\nERROR: Invalid number of columns\n\n"] } := by
    intro hs
    unfold handle_cols
    rw [if_pos hempty, hs]
  refine ⟨?_, hnone, ?_⟩
  · intro n hs
    refine ⟨hin n hs, hout n hs, ?_⟩
    intro hd
    by_cases hr : 1 ≤ n ∧ n ≤ 99
    · rw [hin n hs hr]
      exact ⟨fun _ => hr, fun _ => rfl⟩
    · rw [hout n hs hr]
      constructor
      · intro heq
        have heq' : num_col = n := heq
        rw [← heq']
        exact hd
      · intro h
        exact absurd h hr
  · intro hd
    cases hs : stoi cols with
    | none =>
      rw [hnone hs]
      exact hd
    | some n =>
      by_cases hr : 1 ≤ n ∧ n ≤ 99
      · rw [hin n hs hr]
        exact hr
      · rw [hout n hs hr]
        exact hd

/-- Claim C8 at sample arguments, with six columns before: 100 is refused and six columns
stay, 12 is taken, and a word leaves the six columns. -/
theorem column_count_validation_witness :
    handle_cols sample_stoi [49, 48, 48] 6 =
        { value := 6, printed := ["\nERROR: Columns must be in range 1 - 99\n\n"] } ∧
      handle_cols sample_stoi [49, 50] 6 = { value := 12, printed := [] } ∧
      handle_cols sample_stoi [97, 98, 99] 6 =
        { value := 6, printed := ["\nERROR: Invalid number of columns\n\n"] } :=
  ⟨((column_count_validation sample_stoi [49, 48, 48] 6 (by decide)).1 100 (by decide)).2.1
      (by decide),
    ((column_count_validation sample_stoi [49, 50] 6 (by decide)).1 12 (by decide)).1
      (by decide),
    (column_count_validation sample_stoi [97, 98, 99] 6 (by decide)).2.1 (by decide)⟩

/-- Claim C9: for a `-o` argument that `std::stod` reads as `o`, `opacity` is set to `o`
when `0.0 <= o <= 1.0` and only then; otherwise a message is printed, `opacity` keeps its
value and the handler returns. The argument 1.5 is refused in this way. -/
theorem opacity_validation (stod : Str → Option Double) (opa : Str) (opacity : Double)
    (hne : opa ≠ []) :
    (∀ o : Double, stod opa = some o →
      ((∃ q : ℚ, o = .finite q ∧ 0 ≤ q ∧ q ≤ 1) →
        handle_opacity stod opa opacity = { value := o, printed := [] }) ∧
      (¬ (∃ q : ℚ, o = .finite q ∧ 0 ≤ q ∧ q ≤ 1) →
        handle_opacity stod opa opacity =
          { value := opacity,
            printed := ["\nERROR: Opacity must be in range 0.0 to 1.0\n\n"] }) ∧
      ((∃ d : ℚ, opacity = .finite d ∧ 0 ≤ d ∧ d ≤ 1) →
        ((handle_opacity stod opa opacity).value = o ↔
          ∃ q : ℚ, o = .finite q ∧ 0 ≤ q ∧ q ≤ 1))) ∧
    (opa = [49, 46, 53] → stod opa = some (.finite (3 / 2)) →
      handle_opacity stod opa opacity =
        { value := opacity, printed := ["\nERROR: Opacity must be in range 0.0 to 1.0\n\n"] }) := by
  have hempty : (!opa.isEmpty) = true := by
    cases opa with
    | nil => exact absurd rfl hne
    | cons c cs => rfl
  have hin : ∀ o : Double, stod opa = some o → (∃ q : ℚ, o = .finite q ∧ 0 ≤ q ∧ q ≤ 1) →
      handle_opacity stod opa opacity = { value := o, printed := [] } := by
    intro o hs hr
    have ht := (opacity_test_iff o).2 hr
    unfold handle_opacity
    rw [if_pos hempty, hs]
    simp only [ht, if_true]
  have hout : ∀ o : Double, stod opa = some o → ¬ (∃ q : ℚ, o = .finite q ∧ 0 ≤ q ∧ q ≤ 1) →
      handle_opacity stod opa opacity =
        { value := opacity, printed := ["\nERROR: Opacity must be in range 0.0 to 1.0\n\n"] } := by
    intro o hs hr
    have ht : ¬ (Double.le (.finite 0) o && Double.le o (.finite 1)) = true :=
      fun h => hr ((opacity_test_iff o).1 h)
    unfold handle_opacity
    rw [if_pos hempty, hs]
    simp only [ht, Bool.false_eq_true, if_false]
  constructor
  · intro o hs
    refine ⟨hin o hs, hout o hs, ?_⟩
    intro hd
    by_cases hr : ∃ q : ℚ, o = .finite q ∧ 0 ≤ q ∧ q ≤ 1
    · rw [hin o hs hr]
      exact ⟨fun _ => hr, fun _ => rfl⟩
    · rw [hout o hs hr]
      constructor
      · intro heq
        have heq' : opacity = o := heq
        rw [← heq']
        exact hd
      · intro h
        exact absurd h hr
  · intro _ hs
    apply hout _ hs
    rintro ⟨q, hq, _, hq1⟩
    have hq' : (3 / 2 : ℚ) = q := by
      injection hq
    rw [← hq'] at hq1
    norm_num at hq1

/-- Claim C9 at the argument 1.5 with the opacity 0.9 before: the value is refused, 0.9
stays and the message is printed; the argument 0.5 is taken. -/
theorem opacity_validation_witness :
    handle_opacity sample_stod [49, 46, 53] (.finite (9 / 10)) =
        { value := .finite (9 / 10),
          printed := ["\nERROR: Opacity must be in range 0.0 to 1.0\n\n"] } ∧
      handle_opacity sample_stod [48, 46, 53] (.finite (9 / 10)) =
        { value := .finite (1 / 2), printed := [] } :=
  ⟨(opacity_validation sample_stod [49, 46, 53] (.finite (9 / 10)) (by decide)).2 rfl
      (by simp [sample_stod]),
    ((opacity_validation sample_stod [48, 46, 53] (.finite (9 / 10)) (by decide)).1
      (.finite (1 / 2)) (by simp [sample_stod])).1 ⟨1 / 2, rfl, by norm_num, by norm_num⟩⟩

end NwgGrid
